import Mathlib

/-!
Daily Work Management: verification of the task core.

A shallow embedding of the task-tracking core of `app.py` (a single-file
sqlite-backed task manager): the `users` and `tasks` tables, the auth
helpers `register_user` / `login_user`, the task helpers `add_task`,
`get_tasks_for_date`, `get_pending_tasks`, `change_task_status`,
`get_history`, the pending-duration rendering of the Pending Bucket page,
and the day-wise summary of the History page.

Modelling conventions:
* a sqlite table is a list of rows in insertion (rowid) order together
  with the next AUTOINCREMENT id;
* the wall clock is passed in explicitly, as an already formatted string
  where the code formats it, and as a count of seconds where the code
  does duration arithmetic;
* sqlite TEXT comparison (memcmp on the bytes) is modelled by `strLE`, a
  lexicographic order on the characters, which agrees with memcmp on the
  ASCII date and time strings the program stores;
* `ORDER BY` is modelled by `List.insertionSort` with the corresponding
  total order on rows;
* the SHA-256 password digest is an external library call; the theorems
  are stated for an arbitrary digest function `hash : String → String`.
-/

namespace DailyWork

/-- Character-list comparison underlying `strLE`: true iff the first list
is lexicographically ≤ the second (by Unicode scalar value, which is byte
order for the ASCII strings the program stores). -/
def charListLE : List Char → List Char → Bool
  | [], _ => true
  | _ :: _, [] => false
  | a :: as, b :: bs =>
    if a = b then charListLE as bs
    else decide (a < b)

/-- Order on stored TEXT values, as the sqlite memcmp collation sees
them. -/
def strLE (a b : String) : Bool := charListLE a.data b.data

/-- Row of the sqlite `tasks` table of `app.py`: columns id, user_id,
title, description, created_at, task_date (YYYY-MM-DD), task_time
(optional, stored as a string, empty when absent), status
(pending / done), status_changed_at and the nullable pending_from. -/
structure Task where
  id : Nat
  user_id : Nat
  title : String
  description : String
  created_at : String
  task_date : String
  task_time : String
  status : String
  status_changed_at : String
  pending_from : Option String
deriving DecidableEq

/-- State of the `tasks` table: the rows in insertion (rowid) order,
together with the next AUTOINCREMENT id. -/
structure TaskStore where
  tasks : List Task
  next_id : Nat
deriving DecidableEq

/-- Row inserted by `add_task` of `app.py`: status `pending`,
`created_at = status_changed_at = pending_from = now`, and `task_time`
defaulted to the empty string when absent (the Python expression
`task_time or ''`). `now` is the formatted wall clock. -/
def new_task_row (uid : Nat) (title description task_date : String)
    (task_time : Option String) (now : String) (rowid : Nat) : Task :=
  { id := rowid
    user_id := uid
    title := title
    description := description
    created_at := now
    task_date := task_date
    task_time := match task_time with | none => "" | some s => s
    status := "pending"
    status_changed_at := now
    pending_from := some now }

/-- The `add_task` helper of `app.py`: INSERT of the fresh row built by
`new_task_row` at the next AUTOINCREMENT id. -/
def add_task (uid : Nat) (title description task_date : String)
    (task_time : Option String) (now : String) (ts : TaskStore) : TaskStore :=
  { tasks := ts.tasks ++
      [new_task_row uid title description task_date task_time now ts.next_id]
    next_id := ts.next_id + 1 }

/-- Row-wise effect of the UPDATE in `change_task_status`: a row whose id
matches gets the new status, `status_changed_at = now`, and `pending_from`
set to `now` when the new status is `pending` and to NULL otherwise; any
other row is untouched. -/
def update_row (task_id : Nat) (new_status now : String) (t : Task) : Task :=
  if t.id = task_id then
    { t with
      status := new_status
      status_changed_at := now
      pending_from := if new_status = "pending" then some now else none }
  else t

/-- The `change_task_status` helper of `app.py`: UPDATE of every row whose
id matches. A task id that matches no row updates nothing. -/
def change_task_status (task_id : Nat) (new_status now : String)
    (ts : TaskStore) : TaskStore :=
  { ts with tasks := ts.tasks.map (update_row task_id new_status now) }

/-- Row order of `ORDER BY id` (used by `get_tasks_for_date`). -/
def idLE (a b : Task) : Prop := a.id ≤ b.id

/-- Row order of `ORDER BY task_date, task_time` (used by
`get_pending_tasks`): task_date ascending, then task_time ascending, both
in the stored-string order, so an empty time sorts first. -/
def pendingLE (a b : Task) : Prop :=
  (if a.task_date = b.task_date then strLE a.task_time b.task_time
   else strLE a.task_date b.task_date) = true

/-- Row order of `ORDER BY task_date DESC, task_time` (used by
`get_history`): task_date descending, then task_time ascending. -/
def historyLE (a b : Task) : Prop :=
  (if a.task_date = b.task_date then strLE a.task_time b.task_time
   else strLE b.task_date a.task_date) = true

instance : DecidableRel idLE := fun a b =>
  inferInstanceAs (Decidable (a.id ≤ b.id))

instance : DecidableRel pendingLE := fun a b =>
  inferInstanceAs (Decidable
    ((if a.task_date = b.task_date then strLE a.task_time b.task_time
      else strLE a.task_date b.task_date) = true))

instance : DecidableRel historyLE := fun a b =>
  inferInstanceAs (Decidable
    ((if a.task_date = b.task_date then strLE a.task_time b.task_time
      else strLE b.task_date a.task_date) = true))

/-- The `get_tasks_for_date` helper of `app.py`: SELECT of the rows of
one user for one exact task_date, ORDER BY id. -/
def get_tasks_for_date (uid : Nat) (task_date : String) (ts : TaskStore) :
    List Task :=
  List.insertionSort idLE
    (ts.tasks.filter (fun t => t.user_id == uid && t.task_date == task_date))

/-- The `get_pending_tasks` helper of `app.py`: SELECT of the rows of one
user with status pending, ORDER BY task_date, task_time. -/
def get_pending_tasks (uid : Nat) (ts : TaskStore) : List Task :=
  List.insertionSort pendingLE
    (ts.tasks.filter (fun t => t.user_id == uid && t.status == "pending"))

/-- The `get_history` helper of `app.py`: SELECT of the rows of one user
with the inclusive date bounds appended only when the Python bound is
truthy (neither None nor the empty string), ORDER BY task_date DESC,
task_time. -/
def get_history (uid : Nat) (start_date end_date : Option String)
    (ts : TaskStore) : List Task :=
  List.insertionSort historyLE
    (ts.tasks.filter (fun t =>
      t.user_id == uid
      && (match start_date with
          | none => true
          | some s => if s = "" then true else strLE s t.task_date)
      && (match end_date with
          | none => true
          | some e => if e = "" then true else strLE t.task_date e)))

/-- Range predicate of the spec for `list_history`: the task_date lies in
the inclusive interval, an absent bound imposing no constraint on its
side. -/
def inRange (start_date end_date : Option String) (d : String) : Prop :=
  (∀ s, start_date = some s → strLE s d = true)
  ∧ (∀ e, end_date = some e → strLE d e = true)

/-- Range predicate actually implemented by `get_history`: a present
lower bound constrains from below (the empty string being vacuous there),
a present and non-empty upper bound constrains from above, while an
empty-string upper bound is dropped by the Python truthiness test. -/
def inRangeImpl (start_date end_date : Option String) (d : String) : Prop :=
  (∀ s, start_date = some s → strLE s d = true)
  ∧ (∀ e, end_date = some e → (e = "" ∨ strLE d e = true))

/-- Invariant of the spec: pending_from is present exactly on rows whose
status is pending. -/
def pending_from_inv (ts : TaskStore) : Prop :=
  ∀ t ∈ ts.tasks, (t.pending_from.isSome = true ↔ t.status = "pending")

instance (ts : TaskStore) : Decidable (pending_from_inv ts) :=
  List.decidableBAll _ ts.tasks

/-- Row of the sqlite `users` table of `app.py`: id, the UNIQUE username,
password_hash and created_at. -/
structure UserRec where
  id : Nat
  username : String
  password_hash : String
  created_at : String
deriving DecidableEq

/-- State of the `users` table: rows in insertion order plus the next
AUTOINCREMENT id. -/
structure UserStore where
  users : List UserRec
  next_id : Nat
deriving DecidableEq

/-- The `register_user` helper of `app.py`: INSERT of a new user; the
UNIQUE constraint on username raises IntegrityError exactly when the
username is already stored (byte-exact, hence case-sensitive, match),
which the function reports as `(False, "Username already taken")`.
`hash` is the password digest (SHA-256 hex in the source). Returns the
`(ok, message)` pair together with the updated table. -/
def register_user (hash : String → String) (username password now : String)
    (us : UserStore) : (Bool × String) × UserStore :=
  if us.users.any (fun r => r.username == username) then
    ((false, "Username already taken"), us)
  else
    ((true, "Registered successfully"),
     { users := us.users ++
         [{ id := us.next_id
            username := username
            password_hash := hash password
            created_at := now }]
       next_id := us.next_id + 1 })

/-- The `login_user` helper of `app.py`: SELECT of the first row with the
given username; `(False, None)` when there is none, `(False, None)` again
when the stored password_hash differs from the digest of the supplied
password, and `(True, row)` otherwise. -/
def login_user (hash : String → String) (username password : String)
    (us : UserStore) : Bool × Option UserRec :=
  match us.users.find? (fun r => r.username == username) with
  | none => (false, none)
  | some row =>
    if row.password_hash ≠ hash password then (false, none) else (true, some row)

/-- Username availability as the UNIQUE constraint sees it: some stored
row carries byte-for-byte the same username. -/
def username_taken (username : String) (us : UserStore) : Prop :=
  ∃ r ∈ us.users, r.username = username

instance (u : String) (us : UserStore) : Decidable (username_taken u us) :=
  List.decidableBEx _ us.users

/-- Duration rendering of the Pending Bucket page of `app.py`: the Python
`timedelta` between the clock and the parsed timestamp, both counted in
seconds, normalised the way `timedelta` does (days is the floor quotient
by 86400, may be negative; seconds is the non-negative floor remainder),
then printed as whole days, hours and minutes. -/
def render_duration (now dt : Int) : String :=
  let delta := now - dt
  let days := Int.fdiv delta 86400
  let secs := Int.fmod delta 86400
  let hours := Int.fdiv secs 3600
  let mins := Int.fdiv (Int.fmod secs 3600) 60
  toString days ++ "d " ++ toString hours ++ "h " ++ toString mins ++ "m ago"

/-- The pending-since computation of the Pending Bucket page of `app.py`:
the anchor is `pending_from or created_at` (Python truthiness, so NULL and
the empty string both fall back to created_at); if the anchor parses as a
timestamp the rendered duration is shown, and if parsing raises then the
raw stored string is shown instead. `parse` stands for
`datetime.fromisoformat` measured in seconds. -/
def pending_since (parse : String → Option Int) (now : Int)
    (pending_from : Option String) (created_at : String) : String :=
  let anchor := match pending_from with
    | none => created_at
    | some s => if s = "" then created_at else s
  match parse anchor with
  | none => anchor
  | some dt => render_duration now dt

/-- Row of the day-wise summary of the History page of `app.py`. -/
structure SummaryRow where
  task_date : String
  total_tasks : Nat
  done : Nat
  pending : Nat
deriving DecidableEq

/-- Order on the grouping keys of the day-wise summary. -/
def dateLE (a b : String) : Prop := strLE a b = true

instance : DecidableRel dateLE := fun a b =>
  inferInstanceAs (Decidable (strLE a b = true))

/-- Row the day-wise summary produces for one grouping key `d`:
total_tasks is the group size, done the count of group rows with status
done and pending the count with status pending. -/
def summary_row (hist : List Task) (d : String) : SummaryRow :=
  { task_date := d
    total_tasks := (hist.filter (fun t => t.task_date == d)).length
    done := ((hist.filter (fun t => t.task_date == d)).filter
        (fun t => t.status == "done")).length
    pending := ((hist.filter (fun t => t.task_date == d)).filter
        (fun t => t.status == "pending")).length }

/-- The day-wise summary of the History page of `app.py`: the pandas
groupby on task_date, one group per distinct date with the keys in
ascending order, each group aggregated by `summary_row`. -/
def summary (hist : List Task) : List SummaryRow :=
  (List.insertionSort dateLE ((hist.map (fun t => t.task_date)).dedup)).map
    (summary_row hist)

/-- Concrete pending task used to instantiate the theorems. -/
def demoTask : Task :=
  { id := 0
    user_id := 1
    title := "Write report"
    description := ""
    created_at := "2024-06-01 09:00:00"
    task_date := "2024-06-01"
    task_time := ""
    status := "pending"
    status_changed_at := "2024-06-01 09:00:00"
    pending_from := some "2024-06-01 09:00:00" }

/-- Concrete one-row task table used to instantiate the theorems. -/
def demoStore : TaskStore := { tasks := [demoTask], next_id := 1 }

/-- Concrete one-row user table used to instantiate the theorems, with
the identity function standing in for the digest. -/
def demoUsers : UserStore :=
  { users := [{ id := 0
                username := "alice"
                password_hash := "pw1"
                created_at := "n0" }]
    next_id := 1 }

/-- Concrete three-row history used to instantiate the summary theorem:
two tasks on 2024-06-01 (one done, one pending) and one pending task on
2024-06-02. -/
def demoHist : List Task :=
  [{ demoTask with id := 0, status := "done", pending_from := none },
   { demoTask with id := 1, task_time := "10:00" },
   { demoTask with id := 2, task_date := "2024-06-02" }]

/-- Parse table standing for `datetime.fromisoformat` on the single
future timestamp of the counterexample: thirty seconds after the clock
value zero. -/
def futureParse : String → Option Int := fun s =>
  if s = "2099-01-01 00:00:30" then some 30 else none

/-- Parse table standing for `datetime.fromisoformat` on the single past
timestamp of the witness: 150 seconds before the clock value 250. -/
def pastParse : String → Option Int := fun s =>
  if s = "2024-06-01 09:00:00" then some 100 else none

/-! The order facts about `strLE` and the row orders built from it. -/

theorem charListLE_total (a b : List Char) :
    charListLE a b = true ∨ charListLE b a = true := by
  induction a generalizing b with
  | nil => left; rfl
  | cons x xs ih =>
    cases b with
    | nil => right; rfl
    | cons y ys =>
      by_cases hxy : x = y
      · subst hxy
        simpa [charListLE] using ih ys
      · have hne : y ≠ x := fun h => hxy h.symm
        simp only [charListLE, if_neg hxy, if_neg hne]
        rcases lt_trichotomy x y with h | h | h
        · left; simpa using h
        · exact absurd h hxy
        · right; simpa using h

theorem charListLE_trans {a b c : List Char} (h1 : charListLE a b = true)
    (h2 : charListLE b c = true) : charListLE a c = true := by
  induction a generalizing b c with
  | nil => rfl
  | cons x xs ih =>
    cases b with
    | nil => simp [charListLE] at h1
    | cons y ys =>
      cases c with
      | nil => simp [charListLE] at h2
      | cons z zs =>
        by_cases hxy : x = y <;> by_cases hyz : y = z
        · subst hxy; subst hyz
          simp only [charListLE, if_pos rfl] at *
          exact ih h1 h2
        · subst hxy
          simpa [charListLE, hyz] using h2
        · subst hyz
          simpa [charListLE, hxy] using h1
        · simp only [charListLE, if_neg hxy, if_neg hyz, decide_eq_true_eq] at h1 h2
          have hxz : x < z := lt_trans h1 h2
          have hne : x ≠ z := ne_of_lt hxz
          simp [charListLE, if_neg hne, hxz]

theorem charListLE_antisymm {a b : List Char} (h1 : charListLE a b = true)
    (h2 : charListLE b a = true) : a = b := by
  induction a generalizing b with
  | nil =>
    cases b with
    | nil => rfl
    | cons y ys => simp [charListLE] at h2
  | cons x xs ih =>
    cases b with
    | nil => simp [charListLE] at h1
    | cons y ys =>
      by_cases hxy : x = y
      · subst hxy
        simp only [charListLE, if_pos rfl] at h1 h2
        exact congrArg _ (ih h1 h2)
      · have hne : y ≠ x := fun h => hxy h.symm
        simp only [charListLE, if_neg hxy, if_neg hne, decide_eq_true_eq] at h1 h2
        exact absurd (lt_trans h1 h2) (lt_irrefl x)

theorem strLE_total (a b : String) : strLE a b = true ∨ strLE b a = true :=
  charListLE_total a.data b.data

theorem strLE_trans {a b c : String} (h1 : strLE a b = true)
    (h2 : strLE b c = true) : strLE a c = true :=
  charListLE_trans h1 h2

theorem strLE_antisymm {a b : String} (h1 : strLE a b = true)
    (h2 : strLE b a = true) : a = b := by
  cases a; cases b
  exact congrArg _ (charListLE_antisymm h1 h2)

theorem strLE_refl (a : String) : strLE a a = true := by
  rcases strLE_total a a with h | h <;> exact h

theorem strLE_empty (s : String) : strLE "" s = true := rfl

theorem pendingLE_total (a b : Task) : pendingLE a b ∨ pendingLE b a := by
  unfold pendingLE
  by_cases h : a.task_date = b.task_date
  · rw [if_pos h, if_pos h.symm]
    exact strLE_total _ _
  · rw [if_neg h, if_neg (fun h2 => h h2.symm)]
    exact strLE_total _ _

theorem pendingLE_trans (a b c : Task) (hab : pendingLE a b)
    (hbc : pendingLE b c) : pendingLE a c := by
  unfold pendingLE at *
  by_cases h1 : a.task_date = b.task_date <;> by_cases h2 : b.task_date = c.task_date
  · rw [if_pos h1] at hab
    rw [if_pos h2] at hbc
    rw [if_pos (h1.trans h2)]
    exact strLE_trans hab hbc
  · rw [if_neg (fun h => h2 (h1.symm.trans h))]
    rw [if_neg h2] at hbc
    rw [h1]
    exact hbc
  · rw [if_neg (fun h => h1 (h.trans h2.symm))]
    rw [if_neg h1] at hab
    rw [← h2]
    exact hab
  · rw [if_neg h1] at hab
    rw [if_neg h2] at hbc
    by_cases h3 : a.task_date = c.task_date
    · exact absurd (strLE_antisymm hbc (h3 ▸ hab)) h2
    · rw [if_neg h3]
      exact strLE_trans hab hbc

theorem historyLE_total (a b : Task) : historyLE a b ∨ historyLE b a := by
  unfold historyLE
  by_cases h : a.task_date = b.task_date
  · rw [if_pos h, if_pos h.symm]
    exact strLE_total _ _
  · rw [if_neg h, if_neg (fun h2 => h h2.symm)]
    exact (strLE_total _ _).symm

theorem historyLE_trans (a b c : Task) (hab : historyLE a b)
    (hbc : historyLE b c) : historyLE a c := by
  unfold historyLE at *
  by_cases h1 : a.task_date = b.task_date <;> by_cases h2 : b.task_date = c.task_date
  · rw [if_pos h1] at hab
    rw [if_pos h2] at hbc
    rw [if_pos (h1.trans h2)]
    exact strLE_trans hab hbc
  · rw [if_neg (fun h => h2 (h1.symm.trans h))]
    rw [if_neg h2] at hbc
    rw [h1]
    exact hbc
  · rw [if_neg (fun h => h1 (h.trans h2.symm))]
    rw [if_neg h1] at hab
    rw [← h2]
    exact hab
  · rw [if_neg h1] at hab
    rw [if_neg h2] at hbc
    by_cases h3 : a.task_date = c.task_date
    · exact absurd (strLE_antisymm (h3 ▸ hbc) hab) h1
    · rw [if_neg h3]
      exact strLE_trans hbc hab

/-! Status transitions. -/

/-- Helper: a row of the table produced by `change_task_status` whose id
matches got exactly the field values of the UPDATE. -/
theorem update_row_fields (tid : Nat) (ns now : String) (t : Task)
    (h : (update_row tid ns now t).id = tid) :
    (update_row tid ns now t).status = ns
    ∧ (update_row tid ns now t).status_changed_at = now
    ∧ (update_row tid ns now t).pending_from
        = (if ns = "pending" then some now else none) := by
  by_cases h0 : t.id = tid
  · simp [update_row, h0]
  · simp only [update_row, if_neg h0] at h
    exact absurd h h0

/-- C1: for every task id and new status among pending and done,
`change_task_status` sets the status of the matching row to the new
status and status_changed_at to the clock value, sets pending_from to
the clock value when the new status is pending and clears it when the
new status is done, with no idempotence short-circuit; in particular
marking a task done and then pending again leaves pending_from at the
time of the second call. -/
theorem change_task_status_spec (tid : Nat) (ns now t1 t2 : String)
    (ts : TaskStore) (hns : ns = "pending" ∨ ns = "done") :
    (∀ t ∈ (change_task_status tid ns now ts).tasks, t.id = tid →
       t.status = ns ∧ t.status_changed_at = now
       ∧ t.pending_from = (if ns = "pending" then some now else none))
    ∧ (∀ t ∈ (change_task_status tid "pending" t2
          (change_task_status tid "done" t1 ts)).tasks, t.id = tid →
        t.status = "pending" ∧ t.pending_from = some t2
        ∧ t.status_changed_at = t2) := by
  constructor
  · intro t ht htid
    simp only [change_task_status, List.mem_map] at ht
    obtain ⟨s, _, rfl⟩ := ht
    exact update_row_fields tid ns now s htid
  · intro t ht htid
    simp only [change_task_status, List.mem_map] at ht
    obtain ⟨s, _, rfl⟩ := ht
    have h := update_row_fields tid "pending" t2 s htid
    exact ⟨h.1, h.2.2.trans (by simp), h.2.1⟩

/-- Witness for C1 at a concrete table: marking task 0 done at time t1
and pending again at time t2 refreshes its fields as stated. -/
theorem change_task_status_spec_witness :
    (("done" : String) = "pending" ∨ ("done" : String) = "done")
    ∧ ((∀ t ∈ (change_task_status 0 "done" "t1" demoStore).tasks, t.id = 0 →
          t.status = "done" ∧ t.status_changed_at = "t1"
          ∧ t.pending_from = (if "done" = "pending" then some "t1" else none))
      ∧ (∀ t ∈ (change_task_status 0 "pending" "t2"
            (change_task_status 0 "done" "t1" demoStore)).tasks, t.id = 0 →
          t.status = "pending" ∧ t.pending_from = some "t2"
          ∧ t.status_changed_at = "t2")) :=
  ⟨Or.inr rfl,
   change_task_status_spec 0 "done" "t1" "t1" "t2" demoStore (Or.inr rfl)⟩

/-! The pending_from / status invariant. -/

/-- C3: every task-store operation preserves the invariant that
pending_from is present exactly when the status is pending: `add_task`
creates the row pending with pending_from set to the creation time, and
`change_task_status` (with a new status among pending and done) sets
pending_from to the clock on a transition into pending and clears it on
a transition into done. -/
theorem pending_from_invariant (uid : Nat) (title desc d now : String)
    (tt : Option String) (tid : Nat) (ns t2 : String) (ts : TaskStore)
    (hinv : pending_from_inv ts) (hns : ns = "pending" ∨ ns = "done") :
    pending_from_inv (add_task uid title desc d tt now ts)
    ∧ pending_from_inv (change_task_status tid ns t2 ts)
    ∧ (∀ t ∈ (change_task_status tid "pending" t2 ts).tasks, t.id = tid →
        t.pending_from = some t2)
    ∧ (∀ t ∈ (change_task_status tid "done" t2 ts).tasks, t.id = tid →
        t.pending_from = none) := by
  refine ⟨?_, ?_, ?_, ?_⟩
  · intro t ht
    simp only [add_task, List.mem_append, List.mem_singleton] at ht
    rcases ht with ht | rfl
    · exact hinv t ht
    · simp [new_task_row]
  · intro t ht
    simp only [change_task_status, List.mem_map] at ht
    obtain ⟨s, hs, rfl⟩ := ht
    by_cases h0 : s.id = tid
    · rcases hns with rfl | rfl
      · simp [update_row, h0]
      · simp [update_row, h0]
    · simp only [update_row, if_neg h0]
      exact hinv s hs
  · intro t ht htid
    simp only [change_task_status, List.mem_map] at ht
    obtain ⟨s, _, rfl⟩ := ht
    exact (update_row_fields tid "pending" t2 s htid).2.2.trans (by simp)
  · intro t ht htid
    simp only [change_task_status, List.mem_map] at ht
    obtain ⟨s, _, rfl⟩ := ht
    exact (update_row_fields tid "done" t2 s htid).2.2.trans (by simp)

/-- Witness for C3 at a concrete table. -/
theorem pending_from_invariant_witness :
    pending_from_inv demoStore
    ∧ (("pending" : String) = "pending" ∨ ("pending" : String) = "done")
    ∧ (pending_from_inv (add_task 1 "x" "" "2024-06-01" none "n1" demoStore)
      ∧ pending_from_inv (change_task_status 0 "pending" "n2" demoStore)
      ∧ (∀ t ∈ (change_task_status 0 "pending" "n2" demoStore).tasks,
          t.id = 0 → t.pending_from = some "n2")
      ∧ (∀ t ∈ (change_task_status 0 "done" "n2" demoStore).tasks,
          t.id = 0 → t.pending_from = none)) :=
  ⟨by decide, Or.inl rfl,
   pending_from_invariant 1 "x" "" "2024-06-01" "n1" none 0 "pending" "n2"
     demoStore (by decide) (Or.inl rfl)⟩

/-! Missing task id. -/

/-- C10: `change_task_status` on a task id that matches no row completes
without any error and leaves the whole table unchanged. -/
theorem change_task_status_missing_id (tid : Nat) (ns now : String)
    (ts : TaskStore) (h : ∀ t ∈ ts.tasks, t.id ≠ tid) :
    change_task_status tid ns now ts = ts := by
  have key : ∀ l : List Task, (∀ t ∈ l, t.id ≠ tid) →
      l.map (update_row tid ns now) = l := by
    intro l hl
    induction l with
    | nil => rfl
    | cons x xs ih =>
      simp only [List.map_cons]
      rw [List.cons_eq_cons]
      constructor
      · exact if_neg (hl x (List.mem_cons_self x xs))
      · exact ih (fun t ht => hl t (List.mem_cons_of_mem x ht))
  obtain ⟨tasks, nid⟩ := ts
  simp only [change_task_status]
  exact congrArg (fun l => TaskStore.mk l nid) (key tasks h)

/-- Witness for C10 at a concrete table: id 5 matches no row, the table
is returned untouched. -/
theorem change_task_status_missing_id_witness :
    (∀ t ∈ demoStore.tasks, t.id ≠ 5)
    ∧ change_task_status 5 "done" "n1" demoStore = demoStore :=
  ⟨by decide, change_task_status_missing_id 5 "done" "n1" demoStore (by decide)⟩

/-! Task creation and per-date listing. -/

/-- C2: `add_task` on a valid (non-empty title, date) input persists a
new row with status pending and created_at = status_changed_at =
pending_from = the creation time, under a fresh id no existing row
carries; the row is found by `get_tasks_for_date` on the same date with
status pending and pending_from equal to created_at. -/
theorem add_task_then_list_by_date (uid : Nat) (title desc d now : String)
    (tt : Option String) (ts : TaskStore) (htitle : title ≠ "")
    (hids : ∀ t ∈ ts.tasks, t.id < ts.next_id) :
    ∃ t ∈ get_tasks_for_date uid d (add_task uid title desc d tt now ts),
      t.id = ts.next_id ∧ (∀ u ∈ ts.tasks, u.id ≠ t.id)
      ∧ t.status = "pending" ∧ t.created_at = now ∧ t.status_changed_at = now
      ∧ t.pending_from = some now ∧ t.pending_from = some t.created_at
      ∧ t.title = title ∧ t.task_date = d := by
  refine ⟨new_task_row uid title desc d tt now ts.next_id, ?_, rfl, ?_,
    rfl, rfl, rfl, rfl, rfl, rfl, rfl⟩
  · unfold get_tasks_for_date
    rw [List.mem_insertionSort]
    rw [List.mem_filter]
    constructor
    · simp [add_task]
    · simp [new_task_row]
  · intro u hu
    exact Nat.ne_of_lt (hids u hu)

/-- Witness for C2 at a concrete table. -/
theorem add_task_then_list_by_date_witness :
    ("Call client" : String) ≠ ""
    ∧ (∀ t ∈ demoStore.tasks, t.id < demoStore.next_id)
    ∧ ∃ t ∈ get_tasks_for_date 1 "2024-06-02"
          (add_task 1 "Call client" "" "2024-06-02" none "n1" demoStore),
        t.id = demoStore.next_id ∧ (∀ u ∈ demoStore.tasks, u.id ≠ t.id)
        ∧ t.status = "pending" ∧ t.created_at = "n1"
        ∧ t.status_changed_at = "n1" ∧ t.pending_from = some "n1"
        ∧ t.pending_from = some t.created_at
        ∧ t.title = "Call client" ∧ t.task_date = "2024-06-02" :=
  ⟨by decide, by decide,
   add_task_then_list_by_date 1 "Call client" "" "2024-06-02" "n1" none
     demoStore (by decide) (by decide)⟩

/-! The pending bucket query. -/

/-- C4: `get_pending_tasks` returns exactly the rows of the owner whose
status is pending (in particular never a done row), as a permutation of
the filtered table, sorted by task_date then task_time ascending in the
stored-string order, under which an empty time sorts first among equal
dates. -/
theorem get_pending_tasks_spec (uid : Nat) (ts : TaskStore) :
    List.Perm (get_pending_tasks uid ts)
      (ts.tasks.filter (fun t => t.user_id == uid && t.status == "pending"))
    ∧ (∀ t, t ∈ get_pending_tasks uid ts
        ↔ t ∈ ts.tasks ∧ t.user_id = uid ∧ t.status = "pending")
    ∧ (get_pending_tasks uid ts).Sorted pendingLE
    ∧ (∀ t ∈ get_pending_tasks uid ts, t.status ≠ "done")
    ∧ (∀ a b : Task, a.task_date = b.task_date → a.task_time = "" →
        pendingLE a b) := by
  haveI : IsTotal Task pendingLE := ⟨pendingLE_total⟩
  haveI : IsTrans Task pendingLE := ⟨pendingLE_trans⟩
  have hmem : ∀ t, t ∈ get_pending_tasks uid ts
      ↔ t ∈ ts.tasks ∧ t.user_id = uid ∧ t.status = "pending" := by
    intro t
    unfold get_pending_tasks
    rw [List.mem_insertionSort, List.mem_filter]
    simp [and_assoc]
  refine ⟨List.perm_insertionSort _ _, hmem, List.sorted_insertionSort _ _,
    ?_, ?_⟩
  · intro t ht
    rw [(hmem t).1 ht |>.2.2]
    decide
  · intro a b hdate htime
    unfold pendingLE
    rw [if_pos hdate, htime]
    exact strLE_empty _

/-- Witness for C4 at a concrete table. -/
theorem get_pending_tasks_spec_witness :
    List.Perm (get_pending_tasks 1 demoStore)
      (demoStore.tasks.filter
        (fun t => t.user_id == 1 && t.status == "pending"))
    ∧ (∀ t, t ∈ get_pending_tasks 1 demoStore
        ↔ t ∈ demoStore.tasks ∧ t.user_id = 1 ∧ t.status = "pending")
    ∧ (get_pending_tasks 1 demoStore).Sorted pendingLE
    ∧ (∀ t ∈ get_pending_tasks 1 demoStore, t.status ≠ "done")
    ∧ (∀ a b : Task, a.task_date = b.task_date → a.task_time = "" →
        pendingLE a b) :=
  get_pending_tasks_spec 1 demoStore

/-! The history query. -/

/-- Helper: the truthiness-guarded lower-bound test of `get_history`
agrees with the inclusive lower bound of the spec, the empty-string
bound being vacuous because the empty string is least in the
stored-string order. -/
theorem start_guard_iff (sd : Option String) (d : String) :
    ((match sd with
      | none => true
      | some s => if s = "" then true else strLE s d) = true)
    ↔ ∀ s, sd = some s → strLE s d = true := by
  cases sd with
  | none => simp
  | some s =>
    by_cases hs : s = ""
    · subst hs
      simp [strLE_empty]
    · simp [hs]

/-- Helper: the truthiness-guarded upper-bound test of `get_history`
agrees with the inclusive upper bound of the spec except that an
empty-string upper bound is dropped by the code. -/
theorem end_guard_iff (ed : Option String) (d : String) :
    ((match ed with
      | none => true
      | some e => if e = "" then true else strLE d e) = true)
    ↔ ∀ e, ed = some e → (e = "" ∨ strLE d e = true) := by
  cases ed with
  | none => simp
  | some e =>
    by_cases he : e = ""
    · subst he
      simp
    · simp [he]

/-- C5: `get_history` returns exactly the rows of the owner whose
task_date lies in the inclusive stored-string range (an absent bound
imposing no constraint on its side, start = end giving the one-day
range), as a permutation of the filtered table, sorted by task_date
descending then task_time ascending; whenever every present bound is a
non-empty string the implemented range test coincides with the inclusive
range `inRange` of the spec. -/
theorem get_history_spec (uid : Nat) (sd ed : Option String)
    (ts : TaskStore) :
    List.Perm (get_history uid sd ed ts)
      (ts.tasks.filter (fun t =>
        t.user_id == uid
        && (match sd with
            | none => true
            | some s => if s = "" then true else strLE s t.task_date)
        && (match ed with
            | none => true
            | some e => if e = "" then true else strLE t.task_date e)))
    ∧ (∀ t, t ∈ get_history uid sd ed ts
        ↔ t ∈ ts.tasks ∧ t.user_id = uid ∧ inRangeImpl sd ed t.task_date)
    ∧ (get_history uid sd ed ts).Sorted historyLE
    ∧ ((∀ e, ed = some e → e ≠ "") →
        ∀ d, inRangeImpl sd ed d ↔ inRange sd ed d) := by
  haveI : IsTotal Task historyLE := ⟨historyLE_total⟩
  haveI : IsTrans Task historyLE := ⟨historyLE_trans⟩
  refine ⟨List.perm_insertionSort _ _, ?_, List.sorted_insertionSort _ _, ?_⟩
  · intro t
    unfold get_history
    rw [List.mem_insertionSort, List.mem_filter]
    rw [Bool.and_eq_true, Bool.and_eq_true]
    rw [start_guard_iff, end_guard_iff]
    constructor
    · rintro ⟨ht, ⟨hu, h1⟩, h2⟩
      exact ⟨ht, by simpa using hu, h1, h2⟩
    · rintro ⟨ht, hu, h1, h2⟩
      exact ⟨ht, ⟨by simpa using hu, h1⟩, h2⟩
  · intro hne d
    unfold inRangeImpl inRange
    constructor
    · rintro ⟨h1, h2⟩
      refine ⟨h1, fun e he => ?_⟩
      rcases h2 e he with h | h
      · exact absurd h (hne e he)
      · exact h
    · rintro ⟨h1, h2⟩
      exact ⟨h1, fun e he => Or.inr (h2 e he)⟩

/-- Witness for C5 at a concrete table and a one-day range. -/
theorem get_history_spec_witness :
    List.Perm (get_history 1 (some "2024-06-01") (some "2024-06-01") demoStore)
      (demoStore.tasks.filter (fun t =>
        t.user_id == 1
        && (match some "2024-06-01" with
            | none => true
            | some s => if s = "" then true else strLE s t.task_date)
        && (match some "2024-06-01" with
            | none => true
            | some e => if e = "" then true else strLE t.task_date e)))
    ∧ (∀ t, t ∈ get_history 1 (some "2024-06-01") (some "2024-06-01") demoStore
        ↔ t ∈ demoStore.tasks ∧ t.user_id = 1
          ∧ inRangeImpl (some "2024-06-01") (some "2024-06-01") t.task_date)
    ∧ (get_history 1 (some "2024-06-01") (some "2024-06-01")
        demoStore).Sorted historyLE
    ∧ ((∀ e, (some "2024-06-01" : Option String) = some e → e ≠ "") →
        ∀ d, inRangeImpl (some "2024-06-01") (some "2024-06-01") d
          ↔ inRange (some "2024-06-01") (some "2024-06-01") d) :=
  get_history_spec 1 (some "2024-06-01") (some "2024-06-01") demoStore

/-! Registration and authentication. -/

/-- C8: `register_user` fails with the duplicate-username message exactly
when the username is already taken (byte-exact, case-sensitive match);
otherwise it appends a user with the hashed password and the creation
timestamp, and `login_user` with the same username and password on the
resulting table succeeds and returns exactly that user. -/
theorem register_then_login (hash : String → String) (u p now : String)
    (us : UserStore) :
    ((register_user hash u p now us).1 = (false, "Username already taken")
      ↔ username_taken u us)
    ∧ (¬ username_taken u us →
        (register_user hash u p now us).2.users
          = us.users ++ [⟨us.next_id, u, hash p, now⟩]
        ∧ login_user hash u p (register_user hash u p now us).2
            = (true, some ⟨us.next_id, u, hash p, now⟩)) := by
  have hany : us.users.any (fun r => r.username == u) = true
      ↔ username_taken u us := by
    rw [List.any_eq_true]
    unfold username_taken
    simp
  constructor
  · by_cases h : username_taken u us
    · rw [register_user, if_pos (hany.mpr h)]
      simpa using h
    · rw [register_user, if_neg ?_]
      · simpa using h
      · rw [hany]
        exact h
  · intro h
    have hfalse : us.users.any (fun r => r.username == u) = false := by
      cases hcase : us.users.any (fun r => r.username == u) with
      | false => rfl
      | true => exact absurd (hany.mp hcase) h
    rw [register_user, if_neg (by rw [hfalse]; exact Bool.false_ne_true)]
    refine ⟨rfl, ?_⟩
    rw [login_user]
    have hnone : us.users.find? (fun r => r.username == u) = none := by
      rw [List.find?_eq_none]
      intro r hr
      intro hbeq
      exact h ⟨r, hr, by simpa using hbeq⟩
    rw [List.find?_append, hnone]
    simp [login_user]

/-- Witness for C8 at a concrete table: registering bob then logging in
as bob succeeds and returns the stored bob row. -/
theorem register_then_login_witness :
    ¬ username_taken "bob" demoUsers
    ∧ ((register_user (fun s => s) "bob" "pw2" "n1" demoUsers).2.users
        = demoUsers.users
          ++ [⟨demoUsers.next_id, "bob", (fun s : String => s) "pw2", "n1"⟩]
      ∧ login_user (fun s => s) "bob" "pw2"
          (register_user (fun s => s) "bob" "pw2" "n1" demoUsers).2
          = (true, some
              ⟨demoUsers.next_id, "bob", (fun s : String => s) "pw2", "n1"⟩)) :=
  ⟨by decide,
   (register_then_login (fun s => s) "bob" "pw2" "n1" demoUsers).2 (by decide)⟩

/-- C9: a login with an unknown username and a login with a known
username but a password whose digest does not match return the very same
failure value `(False, None)`, so the two failure cases are not
distinguishable from the result. -/
theorem login_failure_uniform (hash : String → String) (us : UserStore)
    (u1 p1 u2 p2 : String)
    (h1 : ∀ r ∈ us.users, r.username ≠ u1)
    (h2 : ∀ r ∈ us.users, r.username = u2 → r.password_hash ≠ hash p2) :
    login_user hash u1 p1 us = (false, none)
    ∧ login_user hash u2 p2 us = (false, none)
    ∧ login_user hash u1 p1 us = login_user hash u2 p2 us := by
  have ha : login_user hash u1 p1 us = (false, none) := by
    rw [login_user]
    have hnone : us.users.find? (fun r => r.username == u1) = none := by
      rw [List.find?_eq_none]
      intro r hr hbeq
      exact h1 r hr (by simpa using hbeq)
    rw [hnone]
  have hb : login_user hash u2 p2 us = (false, none) := by
    rw [login_user]
    cases hfind : us.users.find? (fun r => r.username == u2) with
    | none => rfl
    | some r =>
      have hmem := List.mem_of_find?_eq_some hfind
      have hru : r.username = u2 := by simpa using List.find?_some hfind
      simp [h2 r hmem hru]
  exact ⟨ha, hb, ha.trans hb.symm⟩

/-- Witness for C9 at a concrete table: a wrong password for alice and
any password for the unknown bob produce the identical failure value. -/
theorem login_failure_uniform_witness :
    (∀ r ∈ demoUsers.users, r.username ≠ "bob")
    ∧ (∀ r ∈ demoUsers.users,
        r.username = "alice" → r.password_hash ≠ (fun s : String => s) "wrong")
    ∧ (login_user (fun s => s) "bob" "anything" demoUsers = (false, none)
      ∧ login_user (fun s => s) "alice" "wrong" demoUsers = (false, none)
      ∧ login_user (fun s => s) "bob" "anything" demoUsers
          = login_user (fun s => s) "alice" "wrong" demoUsers) :=
  ⟨by decide, by decide,
   login_failure_uniform (fun s => s) demoUsers "bob" "anything" "alice"
     "wrong" (by decide) (by decide)⟩

/-! The day-wise summary. -/

/-- Helper: splitting a group whose statuses all lie among pending and
done by status is exhaustive and disjoint, so the group size is the sum
of the two counts. -/
theorem length_eq_done_add_pending (g : List Task)
    (hg : ∀ t ∈ g, t.status = "pending" ∨ t.status = "done") :
    g.length = (g.filter (fun t => t.status == "done")).length
      + (g.filter (fun t => t.status == "pending")).length := by
  induction g with
  | nil => rfl
  | cons x xs ih =>
    have hx := hg x (List.mem_cons_self x xs)
    have ih2 := ih (fun t ht => hg t (List.mem_cons_of_mem x ht))
    rcases hx with hx | hx
    · simp only [List.length_cons, List.filter_cons, hx, ih2]
      simp
      omega
    · simp only [List.length_cons, List.filter_cons, hx, ih2]
      simp
      omega

/-- C7: the day-wise summary has exactly one row per distinct task_date
of the input (its key column repeats no date, and a date appears among
the keys exactly when some input row carries it), each row counts the
tasks of its date in total and split by done and pending status, and
when every status is pending or done the total equals done plus
pending. -/
theorem summary_spec (hist : List Task)
    (hstatus : ∀ t ∈ hist, t.status = "pending" ∨ t.status = "done") :
    ((summary hist).map SummaryRow.task_date).Nodup
    ∧ (∀ d, (∃ row ∈ summary hist, row.task_date = d)
        ↔ d ∈ hist.map Task.task_date)
    ∧ (∀ row ∈ summary hist,
        row.total_tasks
          = (hist.filter (fun t => t.task_date == row.task_date)).length
        ∧ row.done = ((hist.filter (fun t => t.task_date == row.task_date)).filter
            (fun t => t.status == "done")).length
        ∧ row.pending
          = ((hist.filter (fun t => t.task_date == row.task_date)).filter
            (fun t => t.status == "pending")).length
        ∧ row.total_tasks = row.done + row.pending) := by
  have hkeys : (summary hist).map SummaryRow.task_date
      = List.insertionSort dateLE ((hist.map (fun t => t.task_date)).dedup) := by
    unfold summary
    rw [List.map_map]
    have : SummaryRow.task_date ∘ summary_row hist = fun d => d := rfl
    rw [this]
    exact List.map_id _
  refine ⟨?_, ?_, ?_⟩
  · rw [hkeys]
    exact ((List.perm_insertionSort dateLE _).nodup_iff).mpr
      (List.nodup_dedup _)
  · intro d
    constructor
    · rintro ⟨row, hrow, rfl⟩
      have : row.task_date ∈ (summary hist).map SummaryRow.task_date :=
        List.mem_map_of_mem _ hrow
      rw [hkeys, List.mem_insertionSort, List.mem_dedup] at this
      simpa using this
    · intro hd
      refine ⟨summary_row hist d, ?_, rfl⟩
      unfold summary
      apply List.mem_map_of_mem
      rw [List.mem_insertionSort, List.mem_dedup]
      simpa using hd
  · intro row hrow
    unfold summary at hrow
    rw [List.mem_map] at hrow
    obtain ⟨d, _, rfl⟩ := hrow
    refine ⟨rfl, rfl, rfl, ?_⟩
    exact length_eq_done_add_pending _
      (fun t ht => hstatus t (List.mem_of_mem_filter ht))

/-- Witness for C7 at a concrete history. -/
theorem summary_spec_witness :
    (∀ t ∈ demoHist, t.status = "pending" ∨ t.status = "done")
    ∧ (((summary demoHist).map SummaryRow.task_date).Nodup
      ∧ (∀ d, (∃ row ∈ summary demoHist, row.task_date = d)
          ↔ d ∈ demoHist.map Task.task_date)
      ∧ (∀ row ∈ summary demoHist,
          row.total_tasks
            = (demoHist.filter (fun t => t.task_date == row.task_date)).length
          ∧ row.done
            = ((demoHist.filter (fun t => t.task_date == row.task_date)).filter
              (fun t => t.status == "done")).length
          ∧ row.pending
            = ((demoHist.filter (fun t => t.task_date == row.task_date)).filter
              (fun t => t.status == "pending")).length
          ∧ row.total_tasks = row.done + row.pending)) :=
  ⟨by decide, summary_spec demoHist (by decide)⟩

/-! Pending-duration rendering. -/

/-- C6 (amended): the pending-since display anchors on pending_from and
falls back to created_at when pending_from is absent; a stored string
that fails to parse is displayed raw; a parseable timestamp not later
than the clock is rendered as whole days, hours and minutes, all
non-negative, hours below 24 and minutes below 60, jointly decomposing
the elapsed seconds to within one minute. A parseable future timestamp
is NOT displayed raw: it renders with a negative day count (see the
counterexample). -/
theorem pending_since_spec (parse : String → Option Int) (now dt : Int)
    (pf : Option String) (created s : String) :
    (pending_since parse now none created
      = (match parse created with
         | none => created
         | some dt0 => render_duration now dt0))
    ∧ (pf = some s → s ≠ "" → parse s = none →
        pending_since parse now pf created = s)
    ∧ (pf = some s → s ≠ "" → parse s = some dt → dt ≤ now →
        ∃ days hours mins : Int,
          pending_since parse now pf created
            = toString days ++ "d " ++ toString hours ++ "h "
              ++ toString mins ++ "m ago"
          ∧ 0 ≤ days ∧ 0 ≤ hours ∧ hours < 24 ∧ 0 ≤ mins ∧ mins < 60
          ∧ days * 86400 + hours * 3600 + mins * 60 ≤ now - dt
          ∧ now - dt < days * 86400 + hours * 3600 + mins * 60 + 60) := by
  refine ⟨rfl, ?_, ?_⟩
  · rintro rfl hs hparse
    simp only [pending_since]
    rw [if_neg hs, hparse]
  · rintro rfl hs hparse hle
    simp only [pending_since]
    rw [if_neg hs, hparse]
    simp only [render_duration]
    refine ⟨Int.fdiv (now - dt) 86400,
      Int.fdiv (Int.fmod (now - dt) 86400) 3600,
      Int.fdiv (Int.fmod (Int.fmod (now - dt) 86400) 3600) 60,
      rfl, ?_⟩
    have h0 : (0 : Int) ≤ now - dt := by omega
    rw [Int.fdiv_eq_ediv _ (by norm_num), Int.fmod_eq_emod _ (by norm_num),
      Int.fmod_eq_emod _ (by norm_num), Int.fdiv_eq_ediv _ (by norm_num),
      Int.fdiv_eq_ediv _ (by norm_num)]
    omega

/-- C6 counterexample: with the clock at second 0 and pending_from a
well-formed timestamp thirty seconds in the future, the page renders
"-1d 23h 59m ago" — a negative day count produced by the timedelta
normalisation — and does not fall back to the raw stored string, against
the claim that the rendered duration is non-negative and that a future
timestamp falls back to the raw stored value. -/
theorem pending_since_future_counterexample :
    pending_since futureParse 0 (some "2099-01-01 00:00:30")
      "2024-01-01 00:00:00" = "-1d 23h 59m ago"
    ∧ pending_since futureParse 0 (some "2099-01-01 00:00:30")
      "2024-01-01 00:00:00" ≠ "2099-01-01 00:00:30" := by
  constructor
  · rfl
  · decide

/-- Witness for C6 at a concrete clock and stored timestamp 150 seconds
in the past. -/
theorem pending_since_spec_witness :
    (some "2024-06-01 09:00:00" : Option String) = some "2024-06-01 09:00:00"
    ∧ ("2024-06-01 09:00:00" : String) ≠ ""
    ∧ pastParse "2024-06-01 09:00:00" = some 100
    ∧ (100 : Int) ≤ 250
    ∧ ∃ days hours mins : Int,
        pending_since pastParse 250 (some "2024-06-01 09:00:00") "c"
          = toString days ++ "d " ++ toString hours ++ "h "
            ++ toString mins ++ "m ago"
        ∧ 0 ≤ days ∧ 0 ≤ hours ∧ hours < 24 ∧ 0 ≤ mins ∧ mins < 60
        ∧ days * 86400 + hours * 3600 + mins * 60 ≤ 250 - 100
        ∧ (250 : Int) - 100 < days * 86400 + hours * 3600 + mins * 60 + 60 :=
  ⟨rfl, by decide, rfl, by decide,
   (pending_since_spec pastParse 250 100 (some "2024-06-01 09:00:00") "c"
     "2024-06-01 09:00:00").2.2 rfl (by decide) rfl (by decide)⟩

end DailyWork
